import Mathlib

/-!
# FunctionExtractor: a verification development

Shallow embedding of `src/extractor/FunctionExtractor/FunctionExtractor.cpp`,
the Clang plugin that writes every function definition of a translation unit
either to a file of its own (per-function mode) or into one aggregated file
(whole-file mode).

The Clang services the plugin calls (`SourceManager`, `Rewriter`,
`RecursiveASTVisitor`) and the C++ stream library are external to the plugin.
They are represented by the data they deliver:

* a `FunctionDecl` carries the answers of the Clang queries the plugin makes
  on a declaration;
* a translation unit is the list of its function declarations in the order
  in which `RecursiveASTVisitor` visits them;
* `World` holds the observable environment: the files on disk, the two
  diagnostic streams, and the sequence of `ofstream` member calls made so far;
* `canOpen` tells for which file names `ofstream::open` succeeds.
-/

namespace FunctionExtractor

/-! ## Data model -/

/-- Storage classes of `clang::StorageClass`. -/
inductive StorageClass where
  | SC_None
  | SC_Extern
  | SC_Static
  | SC_PrivateExtern
  | SC_Auto
  | SC_Register
  deriving DecidableEq, Repr

/-- What the plugin reads from a `clang::FunctionDecl *D` and the
`SourceManager`/`Rewriter` it is given. -/
structure FunctionDecl where
  /-- Result of `mng.isInSystemHeader(D->getLocation())`. -/
  isInSystemHeader : Bool
  /-- Result of `D->isThisDeclarationADefinition()`. -/
  isThisDeclarationADefinition : Bool
  /-- Result of `mng.getFilename(D->getSourceRange().getBegin()).str()`. -/
  getFilename : String
  /-- Result of `D->getNameInfo().getName().getAsString()`. -/
  getName : String
  /-- Result of `Extractor.getRewrittenText(D->getSourceRange())`. -/
  getRewrittenText : String
  /-- Result of `D->getStorageClass()`. -/
  getStorageClass : StorageClass

/-- A member call on a `std::ofstream`, as recorded in `World.calls`. -/
inductive FileCall where
  | openCall (name : String)
  | writeCall (text : String)
  | closeCall
  deriving DecidableEq, Repr

/-- The environment the plugin acts on. -/
structure World where
  /-- Contents of the files on disk, by name. -/
  files : String → Option String
  /-- Everything sent to `outs()`. -/
  outs : String
  /-- Everything sent to `errs()`. -/
  errs : String
  /-- The `ofstream` member calls performed so far, oldest first. -/
  calls : List FileCall

/-- A `std::ofstream`: `path` is the file it is open on, if any. -/
structure ofstream where
  path : Option String

/-- A default-constructed `ofstream outfile;` is not associated with a file. -/
def ofstream_new : ofstream := ⟨none⟩

/-- Member `is_open()`. -/
def ofstream_is_open (f : ofstream) : Bool := f.path.isSome

/-- Replace the contents of one file. -/
def setFile (files : String → Option String) (name : String) (content : String) :
    String → Option String :=
  fun n => if n = name then some content else files n

/-- Member `open(name)` in the default mode `ios_base::out`: on success the
file is created or truncated; on failure (the file cannot be opened, or the
stream is already open) nothing on disk changes and the stream is left as it
was. -/
def ofstream_open (canOpen : String → Bool) (f : ofstream) (name : String) (w : World) :
    ofstream × World :=
  if f.path.isNone && canOpen name then
    (⟨some name⟩,
      { w with files := setFile w.files name "", calls := w.calls ++ [FileCall.openCall name] })
  else
    (f, { w with calls := w.calls ++ [FileCall.openCall name] })

/-- Stream insertion `f << text`: appends to the open file; on a stream that is
not open the insertion fails and the disk is untouched. -/
def ofstream_write (f : ofstream) (text : String) (w : World) : ofstream × World :=
  match f.path with
  | some p =>
    (f, { w with files := setFile w.files p ((w.files p).getD "" ++ text),
                 calls := w.calls ++ [FileCall.writeCall text] })
  | none => (f, { w with calls := w.calls ++ [FileCall.writeCall text] })

/-- Member `close()`. -/
def ofstream_close (f : ofstream) (w : World) : ofstream × World :=
  match f.path with
  | some _ => (⟨none⟩, { w with calls := w.calls ++ [FileCall.closeCall] })
  | none => (f, { w with calls := w.calls ++ [FileCall.closeCall] })

/-! ## The plugin -/

/-- Source lines 59-71: returns whether a function should be extracted or not. -/
def shouldExtractFunction (D : FunctionDecl) : Bool :=
  -- ignore system functions
  if D.isInSystemHeader then false
  -- we want definitions, not declarations
  else if !D.isThisDeclarationADefinition then false
  else true

/-- Source lines 74-88: returns valid filename for an input file. The loop over
the characters of `originalName` is the left fold. -/
def validateFilename (originalName : String) : String :=
  if originalName.isEmpty then "unknown"
  else
    originalName.data.foldl (fun ret c => if c = '/' then ret else ret.push c) ""

/-- Members `_outFileName` and `_output` of `WholeFileVisitor`. -/
structure WholeFileVisitor where
  _outFileName : String
  _output : String

/-- Source lines 101-105: constructor of `WholeFileVisitor`. -/
def WholeFileVisitor.mkVisitor (file : String) : WholeFileVisitor :=
  let _outFileName := file
  { _outFileName := validateFilename ("extr_wholefile_" ++ _outFileName), _output := "" }

/-- Source lines 108-144: `WholeFileVisitor::VisitFunctionDecl`. The Boolean is
the return value (`true` resumes the traversal). -/
def WholeFileVisitor.VisitFunctionDecl (D : FunctionDecl)
    (s : WholeFileVisitor × World) : Bool × (WholeFileVisitor × World) :=
  let v := s.1
  let w := s.2
  if !shouldExtractFunction D then (true, (v, w))
  else
    let funcName := D.getName
    if funcName = "_" then (true, (v, w))
    else
      let w := { w with outs := w.outs ++ "[Function Extractor plugin] Processing Function: " ++ funcName ++ "\n" }
      let funcBody := D.getRewrittenText
      if funcBody.isEmpty then (true, (v, w))
      else
        let funcBody :=
          if D.getStorageClass = StorageClass.SC_Static then "__attribute__((used)) " ++ funcBody
          else funcBody
        let v := { v with _output := v._output ++ (funcBody ++ "\n\n") }
        (true, (v, w))

/-- Source lines 146-157: `WholeFileVisitor::printOutput`. -/
def WholeFileVisitor.printOutput (canOpen : String → Bool) (v : WholeFileVisitor)
    (w : World) : World :=
  let outfile := ofstream_new
  let (outfile, w) := ofstream_open canOpen outfile v._outFileName w
  if !ofstream_is_open outfile then
    { w with errs := w.errs ++ "[Function Extractor plugin] Error creating output file!\n" }
  else
    let (outfile, w) := ofstream_write outfile v._output w
    let (_, w) := ofstream_close outfile w
    w

/-- Source lines 173-227: `FunctionVisitor::VisitFunctionDecl`. -/
def FunctionVisitor.VisitFunctionDecl (canOpen : String → Bool) (D : FunctionDecl)
    (w : World) : Bool × World :=
  if !shouldExtractFunction D then (true, w)
  else
    let inputFile := validateFilename D.getFilename
    let funcName := D.getName
    let outfileName := "extr_" ++ inputFile ++ "_" ++ funcName ++ ".c"
    if funcName = "_" then (true, w)
    else
      let w := { w with outs := w.outs ++ "[Function Extractor plugin] Processing Function: " ++ funcName
                                  ++ ", File: " ++ inputFile ++ "\n" }
      let funcBody := D.getRewrittenText
      if funcBody.isEmpty then (true, w)
      else
        let funcBody :=
          if D.getStorageClass = StorageClass.SC_Static then "__attribute__((used)) " ++ funcBody
          else funcBody
        let outFile := ofstream_new
        let (outFile, w) := ofstream_open canOpen outFile outfileName w
        let w :=
          if !ofstream_is_open outFile then
            { w with errs := w.errs ++ "[Function Extractor plugin] Error creating file " ++ outfileName ++ "!\n" }
          else w
        let (outFile, w) := ofstream_write outFile funcBody w
        let (_, w) := ofstream_close outFile w
        (true, w)

/-- The walk of `RecursiveASTVisitor::TraverseDecl` over the function
declarations of a translation unit, given in visitation order: the visitor is
called on each one in turn and the walk stops as soon as a call returns
`false`. -/
def TraverseDecl {σ : Type} (visit : FunctionDecl → σ → Bool × σ) :
    List FunctionDecl → σ → Bool × σ
  | [], s => (true, s)
  | D :: rest, s =>
    let r := visit D s
    if r.1 then TraverseDecl visit rest r.2 else (false, r.2)

/-- Source lines 243-246: `FunctionASTConsumer::HandleTranslationUnit`. -/
def FunctionASTConsumer.HandleTranslationUnit (canOpen : String → Bool)
    (unit : List FunctionDecl) (w : World) : World :=
  (TraverseDecl (FunctionVisitor.VisitFunctionDecl canOpen) unit w).2

/-- Source lines 261-265: `WholeFileASTConsumer::HandleTranslationUnit`; the
visitor was built by the consumer's constructor from the unit's name. -/
def WholeFileASTConsumer.HandleTranslationUnit (canOpen : String → Bool)
    (wfvisitor : WholeFileVisitor) (unit : List FunctionDecl) (w : World) : World :=
  let r := (TraverseDecl WholeFileVisitor.VisitFunctionDecl unit (wfvisitor, w)).2
  WholeFileVisitor.printOutput canOpen r.1 r.2

end FunctionExtractor

namespace FunctionExtractor

/-! ## Vocabulary of the specification -/

/-- The four acceptance conditions of the extraction filter: the declaration
is not in a system header, it is a definition, its rendered text is not empty,
and its identifier is not the single underscore. -/
def accepted (D : FunctionDecl) : Prop :=
  D.isInSystemHeader = false ∧ D.isThisDeclarationADefinition = true ∧
    D.getRewrittenText ≠ "" ∧ D.getName ≠ "_"

instance (D : FunctionDecl) : Decidable (accepted D) := by
  unfold accepted
  infer_instance

/-- Sanitising as the specification words it: every path separator is removed
and all other characters are kept in order. -/
def removeSlashes (o : String) : String :=
  String.mk (o.data.filter (fun c => decide (c ≠ '/')))

/-- The sanitised origin of the specification: the token `unknown` for an
empty name, the name without its path separators otherwise. -/
def sanitizedOrigin (o : String) : String :=
  if o = "" then "unknown" else removeSlashes o

/-- The output unit of the specification: the rendered text, behind the retain
annotation when the storage class is static. -/
def unitText (D : FunctionDecl) : String :=
  if D.getStorageClass = StorageClass.SC_Static then
    "__attribute__((used)) " ++ D.getRewrittenText
  else D.getRewrittenText

/-- The per-function file name of the specification. -/
def specFileName (D : FunctionDecl) : String :=
  "extr_" ++ sanitizedOrigin D.getFilename ++ "_" ++ D.getName ++ ".c"

/-- An environment with no files and silent streams. -/
def emptyWorld : World := ⟨fun _ => none, "", "", []⟩

/-- The whole-file buffer of the specification: the unit texts of the accepted
declarations, in order, each followed by a blank line. -/
def concatUnits (unit : List FunctionDecl) : String :=
  (unit.filter (fun D => decide (accepted D))).foldr (fun D acc => unitText D ++ "\n\n" ++ acc) ""

/-- The files a per-function pass replaces, in order: one entry for every
accepted declaration whose file opens. -/
def unitWrites (canOpen : String → Bool) : List FunctionDecl → List (String × String)
  | [] => []
  | D :: rest =>
    if accepted D ∧ canOpen (specFileName D) = true then
      (specFileName D, unitText D) :: unitWrites canOpen rest
    else unitWrites canOpen rest

/-- Replace files one after the other. -/
def applyWrites : List (String × String) → (String → Option String) → String → Option String
  | [], files => files
  | (name, content) :: rest, files => applyWrites rest (setFile files name content)

/-- The lines a per-function pass sends to `errs()`. -/
def unitErrors (canOpen : String → Bool) : List FunctionDecl → String
  | [] => ""
  | D :: rest =>
    if accepted D ∧ canOpen (specFileName D) = false then
      "[Function Extractor plugin] Error creating file " ++ specFileName D ++ "!\n" ++ unitErrors canOpen rest
    else unitErrors canOpen rest

/-- The progress line of the per-function visitor for one declaration: it is
printed once the declaration passed `shouldExtractFunction` and the name test,
before the rendered text is looked at. -/
def progressLine (D : FunctionDecl) : String :=
  if shouldExtractFunction D = true ∧ D.getName ≠ "_" then
    "[Function Extractor plugin] Processing Function: " ++ D.getName ++ ", File: "
      ++ sanitizedOrigin D.getFilename ++ "\n"
  else ""

/-- The lines a per-function pass sends to `outs()`. -/
def unitOuts : List FunctionDecl → String
  | [] => ""
  | D :: rest => progressLine D ++ unitOuts rest

/-- The stream calls a per-function pass makes. -/
def unitCalls : List FunctionDecl → List FileCall
  | [] => []
  | D :: rest =>
    if accepted D then
      [FileCall.openCall (specFileName D), FileCall.writeCall (unitText D), FileCall.closeCall]
        ++ unitCalls rest
    else unitCalls rest

/-! ## Sample declarations -/

/-- External function `bar` of `foo.c`. -/
def declBar : FunctionDecl :=
  ⟨false, true, "foo.c", "bar", "bar()\x7b return 1; \x7d", StorageClass.SC_None⟩

/-- Static function `h` of `a/b.c`. -/
def declH : FunctionDecl :=
  ⟨false, true, "a/b.c", "h", "static void h()\x7b\x7d", StorageClass.SC_Static⟩

/-- Static function `h` of `ab.c`. -/
def declHFlat : FunctionDecl :=
  ⟨false, true, "ab.c", "h", "static void h()\x7b\x7d", StorageClass.SC_Static⟩

/-- Function `f` of `multi.c`. -/
def declF : FunctionDecl :=
  ⟨false, true, "multi.c", "f", "f()\x7b\x7d", StorageClass.SC_None⟩

/-- Function `g` of `multi.c`. -/
def declG : FunctionDecl :=
  ⟨false, true, "multi.c", "g", "g()\x7b\x7d", StorageClass.SC_None⟩

/-- A definition named by the single underscore. -/
def declPlaceholder : FunctionDecl :=
  ⟨false, true, "foo.c", "_", "_()\x7b\x7d", StorageClass.SC_None⟩

/-- Every file can be opened. -/
def allOpen : String → Bool := fun _ => true

/-- No file can be opened. -/
def noneOpen : String → Bool := fun _ => false

/-- A second definition named `bar` in `foo.c` (an overload when the unit is
C++), static and with another body. -/
def declBarOverload : FunctionDecl :=
  ⟨false, true, "foo.c", "bar", "static int bar(int x)\x7b return x; \x7d",
    StorageClass.SC_Static⟩

/-- Function `a_b` of the header `x.h`. -/
def declSplitLeft : FunctionDecl :=
  ⟨false, true, "x.h", "a_b", "void a_b()\x7b\x7d", StorageClass.SC_None⟩

/-- Function `b` of the file `x.h_a`. -/
def declSplitRight : FunctionDecl :=
  ⟨false, true, "x.h_a", "b", "void b()\x7b\x7d", StorageClass.SC_None⟩

/-- A definition `h` for which the source manager has no file name. -/
def declNoFile : FunctionDecl :=
  ⟨false, true, "", "h", "void h()\x7b\x7d", StorageClass.SC_None⟩

/-- A definition `h` in a file that is called `unknown`. -/
def declUnknownFile : FunctionDecl :=
  ⟨false, true, "unknown", "h", "void h()\x7b\x7d", StorageClass.SC_None⟩

theorem foldl_skip_slash (l : List Char) (acc : String) :
    l.foldl (fun ret c => if c = '/' then ret else ret.push c) acc
      = String.mk (acc.data ++ l.filter (fun c => decide (c ≠ '/'))) := by
  induction l generalizing acc with
  | nil => simp
  | cons c cs ih =>
    by_cases hc : c = '/'
    · simp [List.foldl_cons, hc, ih]
    · simp [List.foldl_cons, hc, ih]

theorem validateFilename_empty : validateFilename "" = "unknown" := by decide

theorem validateFilename_of_ne (s : String) (h : s ≠ "") :
    validateFilename s = removeSlashes s := by
  have h1 : s.isEmpty = false := by
    cases hs : s.isEmpty with
    | false => rfl
    | true => exact absurd ((String.isEmpty_iff s).1 hs) h
  unfold validateFilename removeSlashes
  rw [h1, foldl_skip_slash]
  simp

theorem validateFilename_eq_sanitizedOrigin (s : String) :
    validateFilename s = sanitizedOrigin s := by
  unfold sanitizedOrigin
  by_cases h : s = ""
  · subst h
    exact validateFilename_empty
  · rw [if_neg h, validateFilename_of_ne s h]

theorem slash_not_mem_removeSlashes (s : String) : '/' ∉ (removeSlashes s).data := by
  unfold removeSlashes
  simp [List.mem_filter]

theorem removeSlashes_eq_empty_iff (s : String) :
    removeSlashes s = "" ↔ ∀ c ∈ s.data, c = '/' := by
  unfold removeSlashes
  rw [String.ext_iff]
  simp [List.filter_eq_nil_iff]

theorem removeSlashes_append (s t : String) :
    removeSlashes (s ++ t) = removeSlashes s ++ removeSlashes t := by
  apply String.ext
  simp [removeSlashes]

theorem append_ne_empty_left (s t : String) (h : s ≠ "") : s ++ t ≠ "" := by
  intro h2
  apply h
  rw [String.ext_iff] at h2 ⊢
  simp at h2
  simpa using h2.1

end FunctionExtractor

namespace FunctionExtractor

/-! ## One visit, case by case -/

theorem isEmpty_eq_false_of_ne (s : String) (h : s ≠ "") : s.isEmpty = false := by
  cases hs : s.isEmpty with
  | false => rfl
  | true => exact absurd ((String.isEmpty_iff s).1 hs) h

theorem isEmpty_eq_true_of_eq (s : String) (h : s = "") : s.isEmpty = true := by
  subst h
  decide

theorem shouldExtractFunction_of_accepted (D : FunctionDecl) (h : accepted D) :
    shouldExtractFunction D = true := by
  obtain ⟨h1, h2, _, _⟩ := h
  simp [shouldExtractFunction, h1, h2]

theorem setFile_setFile (files : String → Option String) (name a b : String) :
    setFile (setFile files name a) name b = setFile files name b := by
  funext n
  unfold setFile
  by_cases h : n = name <;> simp [h]

/-- A rejected declaration leaves the per-function visitor without any effect
on the disk, the error stream or the stream calls. -/
theorem FunctionVisitor_visit_rejected (canOpen : String → Bool) (D : FunctionDecl)
    (w : World) (h : ¬ accepted D) :
    (FunctionVisitor.VisitFunctionDecl canOpen D w).1 = true ∧
    (FunctionVisitor.VisitFunctionDecl canOpen D w).2.files = w.files ∧
    (FunctionVisitor.VisitFunctionDecl canOpen D w).2.errs = w.errs ∧
    (FunctionVisitor.VisitFunctionDecl canOpen D w).2.calls = w.calls := by
  unfold FunctionVisitor.VisitFunctionDecl
  by_cases hs : shouldExtractFunction D = true
  · by_cases hn : D.getName = "_"
    · simp [hs, hn]
    · by_cases ht : D.getRewrittenText = ""
      · simp [hs, hn, isEmpty_eq_true_of_eq _ ht]
      · exfalso
        apply h
        unfold shouldExtractFunction at hs
        refine ⟨?_, ?_, ht, hn⟩
        · cases hh : D.isInSystemHeader <;> simp_all
        · cases hh : D.isThisDeclarationADefinition <;> simp_all
  · simp [hs]

/-- An accepted declaration whose file opens: the file is replaced by the unit
text and nothing is reported on the error stream. -/
theorem FunctionVisitor_visit_written (canOpen : String → Bool) (D : FunctionDecl)
    (w : World) (h : accepted D) (ho : canOpen (specFileName D) = true) :
    FunctionVisitor.VisitFunctionDecl canOpen D w =
      (true,
        { files := setFile w.files (specFileName D) (unitText D),
          outs := w.outs ++ "[Function Extractor plugin] Processing Function: " ++ D.getName
                    ++ ", File: " ++ sanitizedOrigin D.getFilename ++ "\n",
          errs := w.errs,
          calls := w.calls ++ [FileCall.openCall (specFileName D),
                     FileCall.writeCall (unitText D), FileCall.closeCall] }) := by
  have hs := shouldExtractFunction_of_accepted D h
  obtain ⟨_, _, ht, hn⟩ := h
  have ho2 : canOpen ("extr_" ++ sanitizedOrigin D.getFilename ++ "_" ++ D.getName ++ ".c")
      = true := ho
  unfold FunctionVisitor.VisitFunctionDecl
  simp only [hs, hn, isEmpty_eq_false_of_ne _ ht, validateFilename_eq_sanitizedOrigin]
  simp [ofstream_open, ofstream_new, ofstream_is_open, ofstream_write, ofstream_close, ho2,
    specFileName, unitText, setFile]
  exact setFile_setFile _ _ _ _

/-- An accepted declaration whose file does not open: the error line is
reported and the disk is untouched. -/
theorem FunctionVisitor_visit_failed (canOpen : String → Bool) (D : FunctionDecl)
    (w : World) (h : accepted D) (ho : canOpen (specFileName D) = false) :
    FunctionVisitor.VisitFunctionDecl canOpen D w =
      (true,
        { files := w.files,
          outs := w.outs ++ "[Function Extractor plugin] Processing Function: " ++ D.getName
                    ++ ", File: " ++ sanitizedOrigin D.getFilename ++ "\n",
          errs := w.errs ++ "[Function Extractor plugin] Error creating file " ++ specFileName D ++ "!\n",
          calls := w.calls ++ [FileCall.openCall (specFileName D),
                     FileCall.writeCall (unitText D), FileCall.closeCall] }) := by
  have hs := shouldExtractFunction_of_accepted D h
  obtain ⟨_, _, ht, hn⟩ := h
  have ho2 : canOpen ("extr_" ++ sanitizedOrigin D.getFilename ++ "_" ++ D.getName ++ ".c")
      = false := ho
  unfold FunctionVisitor.VisitFunctionDecl
  simp only [hs, hn, isEmpty_eq_false_of_ne _ ht, validateFilename_eq_sanitizedOrigin]
  simp [ofstream_open, ofstream_new, ofstream_is_open, ofstream_write, ofstream_close, ho2,
    specFileName, unitText]

end FunctionExtractor

namespace FunctionExtractor

theorem WholeFileVisitor_visit_rejected (D : FunctionDecl) (v : WholeFileVisitor)
    (w : World) (h : ¬ accepted D) :
    (WholeFileVisitor.VisitFunctionDecl D (v, w)).1 = true ∧
    (WholeFileVisitor.VisitFunctionDecl D (v, w)).2.1 = v ∧
    (WholeFileVisitor.VisitFunctionDecl D (v, w)).2.2.files = w.files ∧
    (WholeFileVisitor.VisitFunctionDecl D (v, w)).2.2.errs = w.errs ∧
    (WholeFileVisitor.VisitFunctionDecl D (v, w)).2.2.calls = w.calls := by
  unfold WholeFileVisitor.VisitFunctionDecl
  by_cases hs : shouldExtractFunction D = true
  · by_cases hn : D.getName = "_"
    · simp [hs, hn]
    · by_cases ht : D.getRewrittenText = ""
      · simp [hs, hn, isEmpty_eq_true_of_eq _ ht]
      · exfalso
        apply h
        unfold shouldExtractFunction at hs
        refine ⟨?_, ?_, ht, hn⟩
        · cases hh : D.isInSystemHeader <;> simp_all
        · cases hh : D.isThisDeclarationADefinition <;> simp_all
  · simp [hs]

theorem WholeFileVisitor_visit_accepted (D : FunctionDecl) (v : WholeFileVisitor)
    (w : World) (h : accepted D) :
    WholeFileVisitor.VisitFunctionDecl D (v, w) =
      (true,
        ({ _outFileName := v._outFileName, _output := v._output ++ (unitText D ++ "\n\n") },
         { files := w.files,
           outs := w.outs ++ "[Function Extractor plugin] Processing Function: " ++ D.getName ++ "\n",
           errs := w.errs,
           calls := w.calls })) := by
  have hs := shouldExtractFunction_of_accepted D h
  obtain ⟨_, _, ht, hn⟩ := h
  unfold WholeFileVisitor.VisitFunctionDecl
  simp [hs, hn, isEmpty_eq_false_of_ne _ ht, unitText]

/-- The whole-file walk visits every declaration, keeps the file name, the disk,
the error stream and the stream calls, and appends the units to the buffer. -/
theorem WholeFileVisitor_traverse (unit : List FunctionDecl) (v : WholeFileVisitor)
    (w : World) :
    (TraverseDecl WholeFileVisitor.VisitFunctionDecl unit (v, w)).1 = true ∧
    (TraverseDecl WholeFileVisitor.VisitFunctionDecl unit (v, w)).2.1._outFileName
      = v._outFileName ∧
    (TraverseDecl WholeFileVisitor.VisitFunctionDecl unit (v, w)).2.1._output
      = v._output ++ concatUnits unit ∧
    (TraverseDecl WholeFileVisitor.VisitFunctionDecl unit (v, w)).2.2.files = w.files ∧
    (TraverseDecl WholeFileVisitor.VisitFunctionDecl unit (v, w)).2.2.errs = w.errs ∧
    (TraverseDecl WholeFileVisitor.VisitFunctionDecl unit (v, w)).2.2.calls = w.calls := by
  induction unit generalizing v w with
  | nil => simp [TraverseDecl, concatUnits]
  | cons D rest ih =>
    by_cases h : accepted D
    · have hv := WholeFileVisitor_visit_accepted D v w h
      simp only [TraverseDecl, hv, if_true]
      obtain ⟨i1, i2, i3, i4, i5, i6⟩ := ih
        { _outFileName := v._outFileName, _output := v._output ++ (unitText D ++ "\n\n") }
        { files := w.files,
          outs := w.outs ++ "[Function Extractor plugin] Processing Function: " ++ D.getName ++ "\n",
          errs := w.errs, calls := w.calls }
      refine ⟨i1, i2, ?_, i4, i5, i6⟩
      rw [i3]
      simp [concatUnits, List.filter_cons, h, String.append_assoc]
    · obtain ⟨r1, r2, r3, r4, r5⟩ := WholeFileVisitor_visit_rejected D v w h
      have hp : WholeFileVisitor.VisitFunctionDecl D (v, w)
          = (true, (v, (WholeFileVisitor.VisitFunctionDecl D (v, w)).2.2)) := by
        apply Prod.ext
        · exact r1
        · apply Prod.ext
          · exact r2
          · rfl
      simp only [TraverseDecl]
      rw [hp]
      simp only [if_true]
      obtain ⟨i1, i2, i3, i4, i5, i6⟩ := ih v (WholeFileVisitor.VisitFunctionDecl D (v, w)).2.2
      refine ⟨i1, i2, ?_, i4.trans r3, i5.trans r4, i6.trans r5⟩
      rw [i3]
      simp [concatUnits, List.filter_cons, h]

end FunctionExtractor

namespace FunctionExtractor

/-! ## A per-function pass as a whole -/

theorem World_ext (a b : World) (h1 : a.files = b.files) (h2 : a.outs = b.outs)
    (h3 : a.errs = b.errs) (h4 : a.calls = b.calls) : a = b := by
  cases a
  cases b
  simp_all

theorem progressLine_of_accepted (D : FunctionDecl) (h : accepted D) :
    progressLine D = "[Function Extractor plugin] Processing Function: " ++ D.getName ++ ", File: "
      ++ sanitizedOrigin D.getFilename ++ "\n" := by
  have hs := shouldExtractFunction_of_accepted D h
  simp [progressLine, hs, h.2.2.2]

theorem FunctionVisitor_visit_rejected_outs (canOpen : String → Bool) (D : FunctionDecl)
    (w : World) (h : ¬ accepted D) :
    (FunctionVisitor.VisitFunctionDecl canOpen D w).2.outs = w.outs ++ progressLine D := by
  unfold FunctionVisitor.VisitFunctionDecl progressLine
  by_cases hs : shouldExtractFunction D = true
  · by_cases hn : D.getName = "_"
    · simp [hs, hn]
    · by_cases ht : D.getRewrittenText = ""
      · simp [hs, hn, isEmpty_eq_true_of_eq _ ht, validateFilename_eq_sanitizedOrigin,
          String.append_assoc]
      · exfalso
        apply h
        unfold shouldExtractFunction at hs
        refine ⟨?_, ?_, ht, hn⟩
        · cases hh : D.isInSystemHeader <;> simp_all
        · cases hh : D.isThisDeclarationADefinition <;> simp_all
  · simp [hs]

/-- The effect of one per-function visit, whatever the declaration. -/
theorem FunctionVisitor_visit_eq (canOpen : String → Bool) (D : FunctionDecl) (w : World) :
    FunctionVisitor.VisitFunctionDecl canOpen D w =
      (true,
        { files := applyWrites (unitWrites canOpen [D]) w.files,
          outs := w.outs ++ unitOuts [D],
          errs := w.errs ++ unitErrors canOpen [D],
          calls := w.calls ++ unitCalls [D] }) := by
  by_cases h : accepted D
  · cases ho : canOpen (specFileName D) with
    | true =>
      rw [FunctionVisitor_visit_written canOpen D w h ho]
      simp [unitWrites, unitOuts, unitErrors, unitCalls, applyWrites, h, ho,
        progressLine_of_accepted D h, String.append_assoc]
    | false =>
      rw [FunctionVisitor_visit_failed canOpen D w h ho]
      simp [unitWrites, unitOuts, unitErrors, unitCalls, applyWrites, h, ho,
        progressLine_of_accepted D h, String.append_assoc]
  · obtain ⟨r1, r2, r3, r4⟩ := FunctionVisitor_visit_rejected canOpen D w h
    have r5 := FunctionVisitor_visit_rejected_outs canOpen D w h
    apply Prod.ext
    · exact r1
    · apply World_ext
      · simpa [unitWrites, applyWrites, h] using r2
      · simpa [unitOuts] using r5
      · simpa [unitErrors, h] using r3
      · simpa [unitCalls, h] using r4

theorem applyWrites_append (a b : List (String × String)) (files : String → Option String) :
    applyWrites (a ++ b) files = applyWrites b (applyWrites a files) := by
  induction a generalizing files with
  | nil => rfl
  | cons x xs ih =>
    obtain ⟨n, t⟩ := x
    simp only [List.cons_append, applyWrites]
    exact ih _

theorem unitWrites_cons (canOpen : String → Bool) (D : FunctionDecl)
    (rest : List FunctionDecl) :
    unitWrites canOpen (D :: rest) = unitWrites canOpen [D] ++ unitWrites canOpen rest := by
  by_cases h : accepted D ∧ canOpen (specFileName D) = true
  · simp [unitWrites, h]
  · simp [unitWrites, h]

theorem unitErrors_cons (canOpen : String → Bool) (D : FunctionDecl)
    (rest : List FunctionDecl) :
    unitErrors canOpen (D :: rest) = unitErrors canOpen [D] ++ unitErrors canOpen rest := by
  by_cases h : accepted D ∧ canOpen (specFileName D) = false
  · simp [unitErrors, h, String.append_assoc]
  · simp [unitErrors, h]

theorem unitCalls_cons (D : FunctionDecl) (rest : List FunctionDecl) :
    unitCalls (D :: rest) = unitCalls [D] ++ unitCalls rest := by
  by_cases h : accepted D
  · simp [unitCalls, h]
  · simp [unitCalls, h]

theorem unitOuts_cons (D : FunctionDecl) (rest : List FunctionDecl) :
    unitOuts (D :: rest) = unitOuts [D] ++ unitOuts rest := by
  simp [unitOuts]

/-- The per-function walk visits every declaration; its effect on each part of
the environment is a function of the declarations and of `canOpen` alone. -/
theorem FunctionVisitor_traverse (canOpen : String → Bool) (unit : List FunctionDecl)
    (w : World) :
    TraverseDecl (FunctionVisitor.VisitFunctionDecl canOpen) unit w =
      (true,
        { files := applyWrites (unitWrites canOpen unit) w.files,
          outs := w.outs ++ unitOuts unit,
          errs := w.errs ++ unitErrors canOpen unit,
          calls := w.calls ++ unitCalls unit }) := by
  induction unit generalizing w with
  | nil => simp [TraverseDecl, unitWrites, unitOuts, unitErrors, unitCalls, applyWrites]
  | cons D rest ih =>
    simp only [TraverseDecl]
    rw [FunctionVisitor_visit_eq canOpen D w]
    simp only [if_true]
    rw [ih]
    rw [unitWrites_cons canOpen D rest, unitErrors_cons canOpen D rest, unitCalls_cons D rest,
      unitOuts_cons D rest, applyWrites_append]
    simp [String.append_assoc]

theorem applyWrites_of_not_mem (ws : List (String × String)) (files : String → Option String)
    (n : String) (h : n ∉ ws.map Prod.fst) : applyWrites ws files n = files n := by
  induction ws generalizing files with
  | nil => rfl
  | cons x xs ih =>
    obtain ⟨m, t⟩ := x
    simp only [List.map_cons, List.mem_cons, not_or] at h
    simp only [applyWrites]
    rw [ih _ h.2]
    simp [setFile, h.1]

theorem applyWrites_of_mem (ws : List (String × String)) (f g : String → Option String)
    (n : String) (h : n ∈ ws.map Prod.fst) : applyWrites ws f n = applyWrites ws g n := by
  induction ws generalizing f g with
  | nil => simp at h
  | cons x xs ih =>
    obtain ⟨m, t⟩ := x
    simp only [applyWrites]
    by_cases hx : n ∈ xs.map Prod.fst
    · exact ih _ _ hx
    · rw [applyWrites_of_not_mem xs _ n hx, applyWrites_of_not_mem xs _ n hx]
      have hm : n = m := by
        simp only [List.map_cons, List.mem_cons] at h
        rcases h with h | h
        · exact h
        · exact absurd h hx
      simp [setFile, hm]

theorem applyWrites_idempotent (ws : List (String × String)) (files : String → Option String) :
    applyWrites ws (applyWrites ws files) = applyWrites ws files := by
  funext n
  by_cases h : n ∈ ws.map Prod.fst
  · exact applyWrites_of_mem ws _ _ n h
  · exact applyWrites_of_not_mem ws _ n h

end FunctionExtractor

namespace FunctionExtractor

/-! ## The claims -/

theorem append_self_ne (s u : String) (hu : u ≠ "") : s ++ u ≠ s := by
  intro h
  apply hu
  rw [String.ext_iff] at h ⊢
  simpa using h

theorem unitText_ne_empty (D : FunctionDecl) (h : D.getRewrittenText ≠ "") :
    unitText D ≠ "" := by
  unfold unitText
  by_cases hs : D.getStorageClass = StorageClass.SC_Static
  · rw [if_pos hs]
    intro h2
    rw [String.ext_iff] at h2
    simp at h2
  · rw [if_neg hs]
    exact h

/-- C1. In both modes a visit produces an output unit exactly for the accepted
declarations: the per-function visitor makes its open, write and close calls
if and only if the four acceptance conditions hold, the whole-file visitor
extends its buffer by a non-empty text if and only if they hold, and when one
of them fails the disk, the stream calls and the buffer are as before. -/
theorem output_unit_iff_accepted (canOpen : String → Bool) (D : FunctionDecl)
    (v : WholeFileVisitor) (w : World) :
    ((∃ n t, (FunctionVisitor.VisitFunctionDecl canOpen D w).2.calls
        = w.calls ++ [FileCall.openCall n, FileCall.writeCall t, FileCall.closeCall])
      ↔ accepted D) ∧
    ((∃ u, u ≠ "" ∧ (WholeFileVisitor.VisitFunctionDecl D (v, w)).2.1._output = v._output ++ u)
      ↔ accepted D) ∧
    (¬ accepted D →
      (FunctionVisitor.VisitFunctionDecl canOpen D w).2.files = w.files ∧
      (FunctionVisitor.VisitFunctionDecl canOpen D w).2.calls = w.calls ∧
      (WholeFileVisitor.VisitFunctionDecl D (v, w)).2.1 = v ∧
      (WholeFileVisitor.VisitFunctionDecl D (v, w)).2.2.files = w.files ∧
      (WholeFileVisitor.VisitFunctionDecl D (v, w)).2.2.calls = w.calls) := by
  refine ⟨⟨?_, ?_⟩, ⟨?_, ?_⟩, ?_⟩
  · rintro ⟨n, t, hc⟩
    by_contra hna
    rw [(FunctionVisitor_visit_rejected canOpen D w hna).2.2.2] at hc
    have := congrArg List.length hc
    simp at this
  · intro h
    refine ⟨specFileName D, unitText D, ?_⟩
    rw [FunctionVisitor_visit_eq]
    simp [unitCalls, h]
  · rintro ⟨u, hu, hb⟩
    by_contra hna
    rw [(WholeFileVisitor_visit_rejected D v w hna).2.1] at hb
    exact append_self_ne _ _ hu hb.symm
  · intro h
    refine ⟨unitText D ++ "\n\n", ?_, ?_⟩
    · exact append_ne_empty_left _ _ (unitText_ne_empty D h.2.2.1)
    · rw [WholeFileVisitor_visit_accepted D v w h]
  · intro hna
    obtain ⟨_, f1, _, f2⟩ := FunctionVisitor_visit_rejected canOpen D w hna
    obtain ⟨_, g1, g2, _, g3⟩ := WholeFileVisitor_visit_rejected D v w hna
    exact ⟨f1, f2, g1, g2, g3⟩

/-- Scenario 4 for C1: the definition named `_` is not accepted and its visit
leaves disk, calls and buffer unchanged in both modes. -/
theorem output_unit_iff_accepted_witness :
    ¬ accepted declPlaceholder ∧
      (FunctionVisitor.VisitFunctionDecl allOpen declPlaceholder emptyWorld).2.files
        = emptyWorld.files ∧
      (FunctionVisitor.VisitFunctionDecl allOpen declPlaceholder emptyWorld).2.calls
        = emptyWorld.calls ∧
      (WholeFileVisitor.VisitFunctionDecl declPlaceholder
        (WholeFileVisitor.mkVisitor "foo.c", emptyWorld)).2.1
        = WholeFileVisitor.mkVisitor "foo.c" ∧
      (WholeFileVisitor.VisitFunctionDecl declPlaceholder
        (WholeFileVisitor.mkVisitor "foo.c", emptyWorld)).2.2.files = emptyWorld.files ∧
      (WholeFileVisitor.VisitFunctionDecl declPlaceholder
        (WholeFileVisitor.mkVisitor "foo.c", emptyWorld)).2.2.calls = emptyWorld.calls :=
  ⟨by decide,
    (output_unit_iff_accepted allOpen declPlaceholder (WholeFileVisitor.mkVisitor "foo.c")
      emptyWorld).2.2 (by decide)⟩

/-- C2. For an accepted declaration the per-function visitor opens exactly the
file `extr_` ++ s ++ `_` ++ identifier ++ `.c`, where s is `unknown` for an
empty origin name and the origin name without its `/` characters otherwise. -/
theorem per_function_file_name (canOpen : String → Bool) (D : FunctionDecl) (w : World)
    (h : accepted D) :
    ∃ t, (FunctionVisitor.VisitFunctionDecl canOpen D w).2.calls
      = w.calls ++
        [FileCall.openCall
            ("extr_"
              ++ (if D.getFilename = "" then "unknown"
                  else String.mk (D.getFilename.data.filter (fun c => decide (c ≠ '/'))))
              ++ "_" ++ D.getName ++ ".c"),
          FileCall.writeCall t, FileCall.closeCall] := by
  refine ⟨unitText D, ?_⟩
  rw [FunctionVisitor_visit_eq]
  simp [unitCalls, h, specFileName, sanitizedOrigin, removeSlashes]

/-- Scenario 2 for C2: origin `a/b.c` and identifier `h` give `extr_ab.c_h.c`. -/
theorem per_function_file_name_witness :
    accepted declH ∧
    (∃ t, (FunctionVisitor.VisitFunctionDecl allOpen declH emptyWorld).2.calls
      = emptyWorld.calls ++
        [FileCall.openCall
            ("extr_"
              ++ (if declH.getFilename = "" then "unknown"
                  else String.mk (declH.getFilename.data.filter (fun c => decide (c ≠ '/'))))
              ++ "_" ++ declH.getName ++ ".c"),
          FileCall.writeCall t, FileCall.closeCall]) ∧
    "extr_"
        ++ (if declH.getFilename = "" then "unknown"
            else String.mk (declH.getFilename.data.filter (fun c => decide (c ≠ '/'))))
        ++ "_" ++ declH.getName ++ ".c" = "extr_ab.c_h.c" :=
  ⟨by decide, per_function_file_name allOpen declH emptyWorld (by decide), by decide⟩

/-- C3, at the empty unit name: the constructor of the whole-file visitor
sanitises the name after the prefix has been put in front of it, so the
`unknown` token is not used and the file is named by the bare prefix; for every
unit name the file name is the prefix followed by the name without its `/`
characters. -/
theorem whole_file_name_of_empty_unit :
    (WholeFileVisitor.mkVisitor "")._outFileName = "extr_wholefile_" ∧
    "extr_wholefile_" ++ validateFilename "" = "extr_wholefile_unknown" ∧
    (WholeFileVisitor.mkVisitor "")._outFileName ≠ "extr_wholefile_" ++ validateFilename "" ∧
    ∀ n : String,
      (WholeFileVisitor.mkVisitor n)._outFileName
        = "extr_wholefile_" ++ String.mk (n.data.filter (fun c => decide (c ≠ '/'))) := by
  refine ⟨by decide, by decide, by decide, ?_⟩
  intro n
  have hne : ("extr_wholefile_" : String) ≠ "" := by decide
  have hp : removeSlashes "extr_wholefile_" = "extr_wholefile_" := by decide
  show validateFilename ("extr_wholefile_" ++ n) = _
  rw [validateFilename_of_ne _ (append_ne_empty_left _ n hne), removeSlashes_append, hp]
  rfl

/-- C10. The result of `validateFilename` has no `/`; it is empty exactly for
the non-empty inputs made of `/` only; the empty input gives `unknown` and the
input `/` gives the empty token. The `unknown` fallback is for the empty input
alone: every non-empty input is returned with its `/` characters removed and
all its other characters kept in order. -/
theorem validateFilename_slash_free (s : String) :
    '/' ∉ (validateFilename s).data ∧
    (validateFilename s = "" ↔ (s ≠ "" ∧ ∀ c ∈ s.data, c = '/')) ∧
    validateFilename "" = "unknown" ∧ validateFilename "/" = "" ∧
    validateFilename s
      = (if s = "" then "unknown"
         else String.mk (s.data.filter (fun c => decide (c ≠ '/')))) := by
  refine ⟨?_, ?_, by decide, by decide, validateFilename_eq_sanitizedOrigin s⟩
  · by_cases h : s = ""
    · subst h
      decide
    · rw [validateFilename_of_ne s h]
      exact slash_not_mem_removeSlashes s
  · by_cases h : s = ""
    · subst h
      constructor
      · intro h2
        exact absurd h2 (by decide)
      · intro h2
        exact absurd rfl h2.1
    · rw [validateFilename_of_ne s h, removeSlashes_eq_empty_iff]
      constructor
      · intro h2
        exact ⟨h, h2⟩
      · intro h2
        exact h2.2

end FunctionExtractor

namespace FunctionExtractor

theorem opened_name_eq (canOpen : String → Bool) (D : FunctionDecl) (n : String)
    (h : accepted D)
    (ho : FileCall.openCall n ∈ (FunctionVisitor.VisitFunctionDecl canOpen D emptyWorld).2.calls) :
    n = "extr_" ++ validateFilename D.getFilename ++ "_" ++ D.getName ++ ".c" := by
  rw [FunctionVisitor_visit_eq] at ho
  simp [unitCalls, h, emptyWorld] at ho
  rw [ho, specFileName, validateFilename_eq_sanitizedOrigin]

theorem split_at_first_underscore (a c b d : List Char) (ha : '_' ∉ a) (hc : '_' ∉ c)
    (h : a ++ '_' :: b = c ++ '_' :: d) : a = c ∧ b = d := by
  induction a generalizing c with
  | nil =>
    cases c with
    | nil => simpa using h
    | cons y ys =>
      simp only [List.nil_append, List.cons_append, List.cons.injEq] at h
      exact absurd (by simp [← h.1]) hc
  | cons x xs ih =>
    cases c with
    | nil =>
      simp only [List.nil_append, List.cons_append, List.cons.injEq] at h
      exact absurd (by simp [h.1]) ha
    | cons y ys =>
      simp only [List.cons_append, List.cons.injEq] at h
      simp only [List.mem_cons, not_or] at ha hc
      obtain ⟨e1, e2⟩ := ih ys ha.2 hc.2 h.2
      exact ⟨by rw [h.1, e1], e2⟩

theorem split_at_last_underscore (a c b d : List Char) (hb : '_' ∉ b) (hd : '_' ∉ d)
    (h : a ++ '_' :: b = c ++ '_' :: d) : a = c ∧ b = d := by
  have hr := congrArg List.reverse h
  simp only [List.reverse_append, List.reverse_cons, List.append_assoc, List.singleton_append]
    at hr
  obtain ⟨e1, e2⟩ := split_at_first_underscore b.reverse d.reverse a.reverse c.reverse
    (by simpa using hb) (by simpa using hd) hr
  exact ⟨List.reverse_injective e2, List.reverse_injective e1⟩

theorem validateFilename_of_slash_free (o : String) (hne : o ≠ "")
    (h : ∀ c ∈ o.data, c ≠ '/') : validateFilename o = o := by
  rw [validateFilename_of_ne o hne]
  apply String.ext
  unfold removeSlashes
  simp only
  rw [List.filter_eq_self]
  intro c hc
  simpa using h c hc

theorem underscore_not_mem_validateFilename (o : String) (h : ∀ c ∈ o.data, c ≠ '_') :
    '_' ∉ (validateFilename o).data := by
  by_cases hne : o = ""
  · subst hne
    decide
  · rw [validateFilename_of_ne o hne]
    unfold removeSlashes
    intro hm
    exact h _ (List.mem_of_mem_filter hm) rfl

/-- C4, as the code has it. When the visits of two accepted declarations open
the same file, the parts of the name built from the declarations coincide:
sanitised origin, `_`, identifier; so the sanitised origins are equal exactly
when the identifiers are. When neither origin name contains `_`, or neither
identifier does, the identifiers are equal and so are the sanitised origins.
When moreover the origin names are both empty or both non-empty and neither
contains `/`, the origin names are equal as well. -/
theorem file_name_collision (canOpen : String → Bool) (D₁ D₂ : FunctionDecl) (n : String)
    (h₁ : accepted D₁) (h₂ : accepted D₂)
    (o₁ : FileCall.openCall n
      ∈ (FunctionVisitor.VisitFunctionDecl canOpen D₁ emptyWorld).2.calls)
    (o₂ : FileCall.openCall n
      ∈ (FunctionVisitor.VisitFunctionDecl canOpen D₂ emptyWorld).2.calls) :
    validateFilename D₁.getFilename ++ "_" ++ D₁.getName
      = validateFilename D₂.getFilename ++ "_" ++ D₂.getName ∧
    (validateFilename D₁.getFilename = validateFilename D₂.getFilename
      ↔ D₁.getName = D₂.getName) ∧
    ((((∀ c ∈ D₁.getFilename.data, c ≠ '_') ∧ (∀ c ∈ D₂.getFilename.data, c ≠ '_')) ∨
        ((∀ c ∈ D₁.getName.data, c ≠ '_') ∧ (∀ c ∈ D₂.getName.data, c ≠ '_'))) →
      validateFilename D₁.getFilename = validateFilename D₂.getFilename ∧
        D₁.getName = D₂.getName) ∧
    ((((∀ c ∈ D₁.getFilename.data, c ≠ '_') ∧ (∀ c ∈ D₂.getFilename.data, c ≠ '_')) ∨
        ((∀ c ∈ D₁.getName.data, c ≠ '_') ∧ (∀ c ∈ D₂.getName.data, c ≠ '_'))) →
      (D₁.getFilename = "" ↔ D₂.getFilename = "") →
      (∀ c ∈ D₁.getFilename.data, c ≠ '/') →
      (∀ c ∈ D₂.getFilename.data, c ≠ '/') →
      D₁.getFilename = D₂.getFilename ∧ D₁.getName = D₂.getName) := by
  have e₁ := opened_name_eq canOpen D₁ n h₁ o₁
  have e₂ := opened_name_eq canOpen D₂ n h₂ o₂
  have e := e₁.symm.trans e₂
  have hd : (validateFilename D₁.getFilename).data ++ '_' :: D₁.getName.data
      = (validateFilename D₂.getFilename).data ++ '_' :: D₂.getName.data := by
    have := congrArg String.data e
    simp only [String.data_append, List.append_assoc, List.append_cancel_left_eq] at this
    have h7 : ((validateFilename D₁.getFilename).data ++ '_' :: D₁.getName.data) ++ ['.', 'c']
        = ((validateFilename D₂.getFilename).data ++ '_' :: D₂.getName.data) ++ ['.', 'c'] := by
      simpa [List.append_assoc] using this
    exact List.append_cancel_right h7
  have hsplit : (((∀ c ∈ D₁.getFilename.data, c ≠ '_') ∧ (∀ c ∈ D₂.getFilename.data, c ≠ '_')) ∨
        ((∀ c ∈ D₁.getName.data, c ≠ '_') ∧ (∀ c ∈ D₂.getName.data, c ≠ '_'))) →
      validateFilename D₁.getFilename = validateFilename D₂.getFilename ∧
        D₁.getName = D₂.getName := by
    intro hu
    rcases hu with ⟨u₁, u₂⟩ | ⟨u₁, u₂⟩
    · obtain ⟨a, b⟩ := split_at_first_underscore _ _ _ _
        (underscore_not_mem_validateFilename _ u₁) (underscore_not_mem_validateFilename _ u₂) hd
      exact ⟨String.ext a, String.ext b⟩
    · obtain ⟨a, b⟩ := split_at_last_underscore _ _ _ _
        (fun hm => u₁ _ hm rfl) (fun hm => u₂ _ hm rfl) hd
      exact ⟨String.ext a, String.ext b⟩
  refine ⟨?_, ⟨?_, ?_⟩, hsplit, ?_⟩
  · apply String.ext
    simpa [List.append_assoc] using hd
  · intro hs
    rw [hs] at hd
    have := List.append_cancel_left hd
    simp only [List.cons.injEq, true_and] at this
    exact String.ext this
  · intro hf
    rw [hf] at hd
    have := List.append_cancel_right hd
    exact String.ext this
  · intro hu hemp p₁ p₂
    obtain ⟨hs, hf⟩ := hsplit hu
    refine ⟨?_, hf⟩
    by_cases z₁ : D₁.getFilename = ""
    · rw [z₁, hemp.1 z₁]
    · have z₂ : D₂.getFilename ≠ "" := fun z => z₁ (hemp.2 z)
      rw [validateFilename_of_slash_free _ z₁ p₁, validateFilename_of_slash_free _ z₂ p₂] at hs
      exact hs

/-- Witness for C4 as the code has it. The visits of `h` of `a/b.c` and of `h`
of `ab.c` open the same file: the origin names are free of `_`, so the
sanitised origins and the identifiers agree. The visits of the two definitions
named `bar` in `foo.c` open the same file: the identifiers are free of `_` and
the origin names non-empty and free of `/`, so origin names and identifiers
agree. -/
theorem file_name_collision_witness :
    (accepted declH ∧ accepted declHFlat ∧
      declH.getFilename ≠ declHFlat.getFilename ∧
      FileCall.openCall "extr_ab.c_h.c"
        ∈ (FunctionVisitor.VisitFunctionDecl allOpen declH emptyWorld).2.calls ∧
      FileCall.openCall "extr_ab.c_h.c"
        ∈ (FunctionVisitor.VisitFunctionDecl allOpen declHFlat emptyWorld).2.calls ∧
      (validateFilename declH.getFilename = validateFilename declHFlat.getFilename ∧
        declH.getName = declHFlat.getName)) ∧
    (accepted declBar ∧ accepted declBarOverload ∧
      declBar.getRewrittenText ≠ declBarOverload.getRewrittenText ∧
      FileCall.openCall "extr_foo.c_bar.c"
        ∈ (FunctionVisitor.VisitFunctionDecl allOpen declBar emptyWorld).2.calls ∧
      FileCall.openCall "extr_foo.c_bar.c"
        ∈ (FunctionVisitor.VisitFunctionDecl allOpen declBarOverload emptyWorld).2.calls ∧
      (declBar.getFilename = declBarOverload.getFilename ∧
        declBar.getName = declBarOverload.getName)) :=
  ⟨⟨by decide, by decide, by decide, by decide, by decide,
      (file_name_collision allOpen declH declHFlat "extr_ab.c_h.c" (by decide) (by decide)
        (by decide) (by decide)).2.2.1 (Or.inl ⟨by decide, by decide⟩)⟩,
    ⟨by decide, by decide, by decide, by decide, by decide,
      (file_name_collision allOpen declBar declBarOverload "extr_foo.c_bar.c" (by decide)
        (by decide) (by decide) (by decide)).2.2.2 (Or.inr ⟨by decide, by decide⟩) (by decide)
        (by decide) (by decide)⟩⟩

/-- C4 as stated fails, in three ways. The definitions `h` of `a/b.c` and `h`
of `ab.c` are both accepted and both visits open `extr_ab.c_h.c`, yet the
origin names differ (the `/` is dropped). The definitions `a_b` of `x.h` and
`b` of `x.h_a` both open `extr_x.h_a_b.c`, yet origin names and identifiers
differ (the `_` does not mark where the origin ends). The definition `h`
without a file name and `h` of a file called `unknown` both open
`extr_unknown_h.c`, yet the origin names differ. -/
theorem shared_name_distinct_origins :
    (accepted declH ∧ accepted declHFlat ∧
      FileCall.openCall "extr_ab.c_h.c"
        ∈ (FunctionVisitor.VisitFunctionDecl allOpen declH emptyWorld).2.calls ∧
      FileCall.openCall "extr_ab.c_h.c"
        ∈ (FunctionVisitor.VisitFunctionDecl allOpen declHFlat emptyWorld).2.calls ∧
      ¬ (declH.getFilename = declHFlat.getFilename ∧ declH.getName = declHFlat.getName)) ∧
    (accepted declSplitLeft ∧ accepted declSplitRight ∧
      FileCall.openCall "extr_x.h_a_b.c"
        ∈ (FunctionVisitor.VisitFunctionDecl allOpen declSplitLeft emptyWorld).2.calls ∧
      FileCall.openCall "extr_x.h_a_b.c"
        ∈ (FunctionVisitor.VisitFunctionDecl allOpen declSplitRight emptyWorld).2.calls ∧
      declSplitLeft.getFilename ≠ declSplitRight.getFilename ∧
      declSplitLeft.getName ≠ declSplitRight.getName) ∧
    (accepted declNoFile ∧ accepted declUnknownFile ∧
      FileCall.openCall "extr_unknown_h.c"
        ∈ (FunctionVisitor.VisitFunctionDecl allOpen declNoFile emptyWorld).2.calls ∧
      FileCall.openCall "extr_unknown_h.c"
        ∈ (FunctionVisitor.VisitFunctionDecl allOpen declUnknownFile emptyWorld).2.calls ∧
      ¬ (declNoFile.getFilename = declUnknownFile.getFilename ∧
          declNoFile.getName = declUnknownFile.getName)) := by
  decide

end FunctionExtractor

namespace FunctionExtractor

theorem concatUnits_append (a b : List FunctionDecl) :
    concatUnits (a ++ b) = concatUnits a ++ concatUnits b := by
  induction a with
  | nil => simp [concatUnits]
  | cons D rest ih =>
    unfold concatUnits at ih ⊢
    by_cases h : accepted D
    · simp only [List.cons_append, List.filter_cons, h, decide_True, if_true, List.foldr_cons]
      rw [ih]
      simp only [String.append_assoc]
    · simpa [List.filter_cons, h] using ih

theorem concatUnits_cons_accepted (D : FunctionDecl) (rest : List FunctionDecl)
    (h : accepted D) : concatUnits (D :: rest) = unitText D ++ "\n\n" ++ concatUnits rest := by
  simp [concatUnits, List.filter_cons, h]

/-- C5. Starting from the empty buffer of a fresh whole-file visitor, the walk
leaves in the buffer the unit texts of the accepted declarations, each followed
by a blank line, in visitation order; so the text of an accepted declaration
visited earlier stands before the text of one visited later. -/
theorem whole_file_buffer_in_order (file : String) (unit : List FunctionDecl) (w : World) :
    (TraverseDecl WholeFileVisitor.VisitFunctionDecl unit
        (WholeFileVisitor.mkVisitor file, w)).2.1._output
      = (unit.filter (fun D => decide (accepted D))).foldr
          (fun D acc => unitText D ++ "\n\n" ++ acc) "" ∧
    ∀ (pre mid post : List FunctionDecl) (a b : FunctionDecl),
      unit = pre ++ a :: (mid ++ b :: post) → accepted a → accepted b →
      (TraverseDecl WholeFileVisitor.VisitFunctionDecl unit
          (WholeFileVisitor.mkVisitor file, w)).2.1._output
        = concatUnits pre ++ (unitText a ++ "\n\n") ++ concatUnits mid
            ++ (unitText b ++ "\n\n") ++ concatUnits post := by
  have hb := (WholeFileVisitor_traverse unit (WholeFileVisitor.mkVisitor file) w).2.2.1
  have h0 : (WholeFileVisitor.mkVisitor file)._output = "" := rfl
  rw [h0, String.empty_append] at hb
  refine ⟨hb, ?_⟩
  intro pre mid post a b hu ha hb2
  rw [hb, hu, concatUnits_append, concatUnits_cons_accepted a _ ha, concatUnits_append,
    concatUnits_cons_accepted b _ hb2]
  simp only [String.append_assoc]

/-- Scenario 3 for C5: `f` then `g` of `multi.c` leave the text of `f`, a blank
line, the text of `g`, a blank line. -/
theorem whole_file_buffer_in_order_witness :
    accepted declF ∧ accepted declG ∧
    (TraverseDecl WholeFileVisitor.VisitFunctionDecl [declF, declG]
        (WholeFileVisitor.mkVisitor "multi.c", emptyWorld)).2.1._output
      = concatUnits [] ++ (unitText declF ++ "\n\n") ++ concatUnits []
          ++ (unitText declG ++ "\n\n") ++ concatUnits [] ∧
    (TraverseDecl WholeFileVisitor.VisitFunctionDecl [declF, declG]
        (WholeFileVisitor.mkVisitor "multi.c", emptyWorld)).2.1._output
      = "f()\x7b\x7d\n\ng()\x7b\x7d\n\n" :=
  ⟨by decide, by decide,
    (whole_file_buffer_in_order "multi.c" [declF, declG] emptyWorld).2 [] [] [] declF declG rfl
      (by decide) (by decide),
    by decide⟩

/-- C6. For an accepted declaration with rendered text t, the text handed to
the output in both modes is the retain annotation followed by t when the
storage class is static, and t itself otherwise: it is what the per-function
visitor writes (and what the file holds when it opens), and what the
whole-file visitor appends, followed by a blank line, to its buffer. -/
theorem unit_text_retain_annotation (canOpen : String → Bool) (D : FunctionDecl)
    (v : WholeFileVisitor) (w : World) (h : accepted D) :
    (∃ n, (FunctionVisitor.VisitFunctionDecl canOpen D w).2.calls
      = w.calls ++
        [FileCall.openCall n,
          FileCall.writeCall
            (if D.getStorageClass = StorageClass.SC_Static then
              "__attribute__((used)) " ++ D.getRewrittenText
            else D.getRewrittenText),
          FileCall.closeCall] ∧
      (canOpen n = true →
        (FunctionVisitor.VisitFunctionDecl canOpen D w).2.files n
          = some (if D.getStorageClass = StorageClass.SC_Static then
              "__attribute__((used)) " ++ D.getRewrittenText
            else D.getRewrittenText))) ∧
    (WholeFileVisitor.VisitFunctionDecl D (v, w)).2.1._output
      = v._output ++
          ((if D.getStorageClass = StorageClass.SC_Static then
              "__attribute__((used)) " ++ D.getRewrittenText
            else D.getRewrittenText) ++ "\n\n") := by
  refine ⟨⟨specFileName D, ?_, ?_⟩, ?_⟩
  · rw [FunctionVisitor_visit_eq]
    simp [unitCalls, h, unitText]
  · intro ho
    rw [FunctionVisitor_visit_written canOpen D w h ho]
    simp [setFile, unitText]
  · rw [WholeFileVisitor_visit_accepted D v w h]
    simp [unitText]

/-- Scenarios 1 and 2 for C6: the external `bar` is written verbatim to
`extr_foo.c_bar.c`, the static `h` is written behind the annotation. -/
theorem unit_text_retain_annotation_witness :
    accepted declBar ∧
    ((∃ n, (FunctionVisitor.VisitFunctionDecl allOpen declBar emptyWorld).2.calls
      = emptyWorld.calls ++
        [FileCall.openCall n,
          FileCall.writeCall
            (if declBar.getStorageClass = StorageClass.SC_Static then
              "__attribute__((used)) " ++ declBar.getRewrittenText
            else declBar.getRewrittenText),
          FileCall.closeCall] ∧
      (allOpen n = true →
        (FunctionVisitor.VisitFunctionDecl allOpen declBar emptyWorld).2.files n
          = some (if declBar.getStorageClass = StorageClass.SC_Static then
              "__attribute__((used)) " ++ declBar.getRewrittenText
            else declBar.getRewrittenText))) ∧
    (WholeFileVisitor.VisitFunctionDecl declBar
        (WholeFileVisitor.mkVisitor "foo.c", emptyWorld)).2.1._output
      = (WholeFileVisitor.mkVisitor "foo.c")._output ++
          ((if declBar.getStorageClass = StorageClass.SC_Static then
              "__attribute__((used)) " ++ declBar.getRewrittenText
            else declBar.getRewrittenText) ++ "\n\n")) ∧
    (FunctionVisitor.VisitFunctionDecl allOpen declBar emptyWorld).2.files "extr_foo.c_bar.c"
      = some "bar()\x7b return 1; \x7d" ∧
    (FunctionVisitor.VisitFunctionDecl allOpen declH emptyWorld).2.files "extr_ab.c_h.c"
      = some "__attribute__((used)) static void h()\x7b\x7d" :=
  ⟨by decide,
    unit_text_retain_annotation allOpen declBar (WholeFileVisitor.mkVisitor "foo.c") emptyWorld
      (by decide),
    by decide, by decide⟩

end FunctionExtractor

namespace FunctionExtractor

theorem applyWrites_congr (ws : List (String × String)) (f g : String → Option String)
    (n : String) (h : f n = g n) : applyWrites ws f n = applyWrites ws g n := by
  by_cases hm : n ∈ ws.map Prod.fst
  · exact applyWrites_of_mem ws f g n hm
  · rw [applyWrites_of_not_mem ws f n hm, applyWrites_of_not_mem ws g n hm, h]

/-- C7. When the file of an accepted declaration cannot be opened, the visit
reports the error line on `errs()`, leaves the disk as it was and returns
`true`. The walk goes on to every later declaration, the disk at the end is the
one the later declarations alone produce, and the later declarations send the
same lines to both streams, make the same stream calls and leave the same
contents in every file on which the disks agreed, from the state left by the
failure as from any other state (in particular the one a successful write
would have left). -/
theorem open_failure_is_skipped (canOpen : String → Bool) (D : FunctionDecl)
    (rest : List FunctionDecl) (w : World) (h : accepted D)
    (ho : canOpen ("extr_" ++ validateFilename D.getFilename ++ "_" ++ D.getName ++ ".c")
      = false) :
    (FunctionVisitor.VisitFunctionDecl canOpen D w).1 = true ∧
    (FunctionVisitor.VisitFunctionDecl canOpen D w).2.files = w.files ∧
    (FunctionVisitor.VisitFunctionDecl canOpen D w).2.errs
      = w.errs ++ "[Function Extractor plugin] Error creating file "
          ++ ("extr_" ++ validateFilename D.getFilename ++ "_" ++ D.getName ++ ".c") ++ "!\n" ∧
    TraverseDecl (FunctionVisitor.VisitFunctionDecl canOpen) (D :: rest) w
      = TraverseDecl (FunctionVisitor.VisitFunctionDecl canOpen) rest
          (FunctionVisitor.VisitFunctionDecl canOpen D w).2 ∧
    (TraverseDecl (FunctionVisitor.VisitFunctionDecl canOpen) (D :: rest) w).1 = true ∧
    (FunctionASTConsumer.HandleTranslationUnit canOpen (D :: rest) w).files
      = (FunctionASTConsumer.HandleTranslationUnit canOpen rest w).files ∧
    ∀ other : World, ∃ (o e : String) (c : List FileCall),
      (TraverseDecl (FunctionVisitor.VisitFunctionDecl canOpen) rest
          (FunctionVisitor.VisitFunctionDecl canOpen D w).2).2.outs
        = (FunctionVisitor.VisitFunctionDecl canOpen D w).2.outs ++ o ∧
      (TraverseDecl (FunctionVisitor.VisitFunctionDecl canOpen) rest other).2.outs
        = other.outs ++ o ∧
      (TraverseDecl (FunctionVisitor.VisitFunctionDecl canOpen) rest
          (FunctionVisitor.VisitFunctionDecl canOpen D w).2).2.errs
        = (FunctionVisitor.VisitFunctionDecl canOpen D w).2.errs ++ e ∧
      (TraverseDecl (FunctionVisitor.VisitFunctionDecl canOpen) rest other).2.errs
        = other.errs ++ e ∧
      (TraverseDecl (FunctionVisitor.VisitFunctionDecl canOpen) rest
          (FunctionVisitor.VisitFunctionDecl canOpen D w).2).2.calls
        = (FunctionVisitor.VisitFunctionDecl canOpen D w).2.calls ++ c ∧
      (TraverseDecl (FunctionVisitor.VisitFunctionDecl canOpen) rest other).2.calls
        = other.calls ++ c ∧
      ∀ m, (FunctionVisitor.VisitFunctionDecl canOpen D w).2.files m = other.files m →
        (TraverseDecl (FunctionVisitor.VisitFunctionDecl canOpen) rest
            (FunctionVisitor.VisitFunctionDecl canOpen D w).2).2.files m
          = (TraverseDecl (FunctionVisitor.VisitFunctionDecl canOpen) rest other).2.files m := by
  have ho2 : canOpen (specFileName D) = false := by
    rw [specFileName, ← validateFilename_eq_sanitizedOrigin]
    exact ho
  have hv := FunctionVisitor_visit_failed canOpen D w h ho2
  have hn : specFileName D
      = "extr_" ++ validateFilename D.getFilename ++ "_" ++ D.getName ++ ".c" := by
    rw [specFileName, ← validateFilename_eq_sanitizedOrigin]
  refine ⟨?_, ?_, ?_, ?_, ?_, ?_, ?_⟩
  · rw [hv]
  · rw [hv]
  · rw [hv, hn]
  · simp only [TraverseDecl]
    rw [hv]
    simp
  · rw [FunctionVisitor_traverse]
  · unfold FunctionASTConsumer.HandleTranslationUnit
    rw [FunctionVisitor_traverse, FunctionVisitor_traverse]
    simp [unitWrites, h, ho2]
  · intro other
    refine ⟨unitOuts rest, unitErrors canOpen rest, unitCalls rest, ?_⟩
    rw [FunctionVisitor_traverse, FunctionVisitor_traverse]
    refine ⟨rfl, rfl, rfl, rfl, rfl, rfl, ?_⟩
    intro m hm
    exact applyWrites_congr _ _ _ m hm

end FunctionExtractor

namespace FunctionExtractor

/-- Witness for C7: `bar` of `foo.c` followed by `h` of `a/b.c` when no file
can be opened; the error line for `extr_foo.c_bar.c` is reported, the disk is
untouched and the walk completes. -/
theorem open_failure_is_skipped_witness :
    accepted declBar ∧
    noneOpen ("extr_" ++ validateFilename declBar.getFilename ++ "_" ++ declBar.getName ++ ".c")
      = false ∧
    (FunctionVisitor.VisitFunctionDecl noneOpen declBar emptyWorld).1 = true ∧
    (FunctionVisitor.VisitFunctionDecl noneOpen declBar emptyWorld).2.files = emptyWorld.files ∧
    (FunctionVisitor.VisitFunctionDecl noneOpen declBar emptyWorld).2.errs
      = emptyWorld.errs ++ "[Function Extractor plugin] Error creating file "
          ++ ("extr_" ++ validateFilename declBar.getFilename ++ "_" ++ declBar.getName ++ ".c")
          ++ "!\n" ∧
    (TraverseDecl (FunctionVisitor.VisitFunctionDecl noneOpen) [declBar, declH] emptyWorld).1
      = true ∧
    (FunctionVisitor.VisitFunctionDecl noneOpen declBar emptyWorld).2.errs
      = "[Function Extractor plugin] Error creating file extr_foo.c_bar.c!\n" :=
  have t := open_failure_is_skipped noneOpen declBar [declH] emptyWorld (by decide) (by decide)
  ⟨by decide, by decide, t.1, t.2.1, t.2.2.1, t.2.2.2.2.1, by decide⟩

/-- C9. A per-function pass run a second time on the disk left by the first,
with the same declarations and the same unopenable names, leaves that disk as
it is: every file has the same contents after two passes as after one. -/
theorem per_function_pass_idempotent (canOpen : String → Bool) (unit : List FunctionDecl)
    (w : World) :
    (FunctionASTConsumer.HandleTranslationUnit canOpen unit
        (FunctionASTConsumer.HandleTranslationUnit canOpen unit w)).files
      = (FunctionASTConsumer.HandleTranslationUnit canOpen unit w).files := by
  unfold FunctionASTConsumer.HandleTranslationUnit
  rw [FunctionVisitor_traverse, FunctionVisitor_traverse]
  exact applyWrites_idempotent _ _

end FunctionExtractor
